import Mathlib

/-!
Verification of the timeframe / period-bucketing / aggregation engine of the
manufacturing-SaaS dashboard backend (backend/app/api/finance.py,
executive_dashboard.py, sales.py, supply.py, manufacturing.py, marketing.py).

Conventions of the embedding:
* Python `datetime.date` values are `Date` records (year, month, day as `Int`);
  the Python `date` constructor only admits months 1..12 and valid days, which we
  carry as explicit `valid` hypotheses where a proof needs them.
* Python floats are modelled as exact rationals `Rat`: the claims under check
  concern guard and aggregation policy, not rounding of binary floats.
* `dt.date.today()` is the ambient clock; it is passed to the embedded
  `build_timeframe` functions as the explicit `today` argument.
* SQL result sets are modelled as lists of row records; `ORDER BY`
  is modelled with `List.insertionSort` on the ordering column and `LIMIT n`
  with `List.take n`.
* A Python value that may be `NULL`/`None` is an `Option`; where the code
  collapses `None` and `0` with `x or 0`, the embedding uses `0` directly.
-/

/-- Month granularity of a request (`granularity` query parameter). -/
inductive Gran where
  | month : Gran
  | quarter : Gran
deriving DecidableEq, Repr

/-- Window size of a request (`range` query parameter, `6m` or `12m`). -/
inductive RangeE where
  | r6m : RangeE
  | r12m : RangeE
deriving DecidableEq, Repr

/-- Embedding of `months = 6 if range_ == "6m" else 12` as it appears in every module. -/
def RangeE.months : RangeE → Int
  | .r6m => 6
  | .r12m => 12

/-- A year-month pair, the payload of a `"YYYY-MM"` period key. -/
structure YM where
  y : Int
  m : Int
deriving DecidableEq, Repr

/-- Python `datetime.date` only admits months 1..12. -/
def YM.valid (d : YM) : Prop := 1 ≤ d.m ∧ d.m ≤ 12

instance (d : YM) : Decidable d.valid := by unfold YM.valid; infer_instance

/-- Absolute month number; two valid `YM`s compare chronologically by this index. -/
def monthIdx (d : YM) : Int := 12 * d.y + (d.m - 1)

/-- Embedding of `month_add` of finance.py (identical in every module): Python `//` and `%`
on a positive modulus agree with `Int` division and modulus here. -/
def month_add (d : YM) (months : Int) : YM :=
  ⟨d.y + (d.m - 1 + months) / 12, (d.m - 1 + months) % 12 + 1⟩

/-- Chronological (Python `date.__le__`) order on first-of-month dates. -/
def ymLe (a b : YM) : Prop := a.y < b.y ∨ (a.y = b.y ∧ a.m ≤ b.m)

instance (a b : YM) : Decidable (ymLe a b) := by unfold ymLe; infer_instance

theorem monthIdx_month_add (d : YM) (k : Int) :
    monthIdx (month_add d k) = monthIdx d + k := by
  simp only [monthIdx, month_add]
  have h := Int.ediv_add_emod (d.m - 1 + k) 12
  omega

theorem month_add_valid (d : YM) (k : Int) : (month_add d k).valid := by
  have h1 := Int.emod_nonneg (d.m - 1 + k) (by norm_num : (12:Int) ≠ 0)
  have h2 := Int.emod_lt_of_pos (d.m - 1 + k) (by norm_num : (0:Int) < 12)
  simp only [month_add, YM.valid]
  omega

theorem ymLe_iff_monthIdx (a b : YM) (ha : a.valid) (hb : b.valid) :
    ymLe a b ↔ monthIdx a ≤ monthIdx b := by
  unfold ymLe monthIdx YM.valid at *
  omega

/-- A full calendar date (Python `datetime.date`). -/
structure Date where
  y : Int
  m : Int
  day : Int
deriving DecidableEq, Repr

def Date.toYM (d : Date) : YM := ⟨d.y, d.m⟩

def Date.validMonth (d : Date) : Prop := 1 ≤ d.m ∧ d.m ≤ 12

instance (d : Date) : Decidable d.validMonth := by unfold Date.validMonth; infer_instance

/-- Embedding of `month_floor` of finance.py: `d.replace(day=1)`. -/
def month_floor (d : Date) : Date := ⟨d.y, d.m, 1⟩

/-- Embedding of `month_add` at the `date` level: the Python helper returns `date(y, m, 1)`. -/
def month_addD (d : Date) (months : Int) : Date :=
  let x := month_add d.toYM months
  ⟨x.y, x.m, 1⟩

/-- Gregorian leap-year test (Python `datetime` calendar). -/
def isLeap (y : Int) : Bool := (y % 4 == 0 && y % 100 != 0) || y % 400 == 0

def daysInMonth (y m : Int) : Int :=
  if m = 2 then (if isLeap y then 29 else 28)
  else if m = 4 ∨ m = 6 ∨ m = 9 ∨ m = 11 then 30
  else 31

/-- Embedding of `d - timedelta(days=1)` on a date with valid fields. -/
def pred_day (d : Date) : Date :=
  if 1 < d.day then ⟨d.y, d.m, d.day - 1⟩
  else if d.m = 1 then ⟨d.y - 1, 12, 31⟩
  else ⟨d.y, d.m - 1, daysInMonth d.y (d.m - 1)⟩

/-- Timeframe record returned by every `build_timeframe` variant. -/
structure Timeframe where
  range : RangeE
  start_date : Date
  end_date : Date
  granularity : Gran
deriving DecidableEq, Repr

/-- Embedding of `build_timeframe` of finance.py (the same text appears in
executive_dashboard.py, marketing.py and manufacturing.py): the window includes
the current month, `start = month_add(this_month_start, -(months-1))`. -/
def build_timeframe (today : Date) (range_ : RangeE) (granularity : Gran) : Timeframe :=
  let start_of_this_month := month_floor today
  let end_date := pred_day (month_addD start_of_this_month 1)
  let months := range_.months
  let start_date := month_addD start_of_this_month (-(months - 1))
  ⟨range_, start_date, end_date, granularity⟩

/-- Embedding of `build_timeframe` of sales.py (the same text appears in supply.py):
`start = month_add(this_month_start, -months)`, one month longer. -/
def build_timeframe_sales_supply (today : Date) (range_ : RangeE) (granularity : Gran) : Timeframe :=
  let end_date := pred_day (month_addD (month_floor today) 1)
  let months := range_.months
  let start_date := month_addD (month_floor today) (-months)
  ⟨range_, start_date, end_date, granularity⟩

/-- Period label: the string keys `"YYYY-MM"` / `"YYYY-Qn"` of the code, kept in
structured form (the renderings are injective on valid inputs, see `labelStr`). -/
inductive Label where
  | month : YM → Label
  | quarter : (y : Int) → (q : Int) → Label
deriving DecidableEq, Repr

/-- Embedding of `to_quarter_label` of finance.py: `q = (int(m) - 1)//3 + 1`. -/
def to_quarter_label (d : YM) : Label := .quarter d.y ((d.m - 1) / 3 + 1)

/-- Loop body of `list_periods`: append the month label, or the quarter label
when it differs from the last appended label (`if not out or out[-1] != q`). -/
def pushLabel (g : Gran) (out : List Label) (d : YM) : List Label :=
  match g with
  | .month => out ++ [.month d]
  | .quarter =>
    let q := to_quarter_label d
    if out.getLast? = some q then out else out ++ [q]

/-- The `while cur <= end` loop of `list_periods`, with enough fuel to cover the
whole window (the guard is re-checked each step exactly as in the source). -/
def periods_go (g : Gran) (fin : YM) : Nat → YM → List Label → List Label
  | 0, _, out => out
  | fuel + 1, cur, out =>
    if ymLe cur fin then periods_go g fin fuel (month_add cur 1) (pushLabel g out cur)
    else out

/-- Embedding of `list_periods` of finance.py / executive_dashboard.py (named `periods` in
manufacturing.py and `wanted_periods` in sales.py, same text): enumerate months
from the floored start to the floored end, collapsing to quarter labels. -/
def list_periods (tf : Timeframe) : List Label :=
  let start := (month_floor tf.start_date).toYM
  let fin := (month_floor tf.end_date).toYM
  periods_go tf.granularity fin (monthIdx fin + 1 - monthIdx start).toNat start []

/-- Zero-padded month rendering of `strftime("%Y-%m")` and the quarter
f-string `"Y-Qq"`. -/
def pad2 (n : Int) : String := if n < 10 then "0" ++ toString n else toString n

def labelStr : Label → String
  | .month d => toString d.y ++ "-" ++ pad2 d.m
  | .quarter y q => toString y ++ "-Q" ++ toString q

example :
    (list_periods (build_timeframe ⟨2025, 9, 15⟩ .r6m .month)).map labelStr =
      ["2025-04", "2025-05", "2025-06", "2025-07", "2025-08", "2025-09"] := by
  decide

example :
    (list_periods (build_timeframe ⟨2025, 9, 15⟩ .r6m .quarter)).map labelStr =
      ["2025-Q2", "2025-Q3"] := by
  decide

/-! ### Chronological order on period labels -/

/-- Strict chronological order on labels of a common granularity. -/
def chronoLt : Label → Label → Prop
  | .month a, .month b => a.y < b.y ∨ (a.y = b.y ∧ a.m < b.m)
  | .quarter y q, .quarter y2 q2 => y < y2 ∨ (y = y2 ∧ q < q2)
  | _, _ => False

instance : DecidableRel chronoLt := fun a b => by
  cases a <;> cases b <;> simp only [chronoLt] <;> infer_instance

def chronoLe (a b : Label) : Prop := chronoLt a b ∨ a = b

theorem chronoLt_trans {a b c : Label} (h1 : chronoLt a b) (h2 : chronoLt b c) :
    chronoLt a c := by
  cases a <;> cases b <;> cases c <;> simp only [chronoLt] at * <;> omega

theorem chronoLt_irrefl (a : Label) : ¬ chronoLt a a := by
  cases a <;> simp only [chronoLt] <;> omega

instance : IsTrans Label chronoLt := ⟨fun _ _ _ => chronoLt_trans⟩

instance : IsIrrefl Label chronoLt := ⟨chronoLt_irrefl⟩

theorem chronoLe_of_le_lt {a b c : Label} (h1 : chronoLe a b) (h2 : chronoLt b c) :
    chronoLt a c := by
  rcases h1 with h1 | rfl
  · exact chronoLt_trans h1 h2
  · exact h2

theorem chronoLe_trans {a b c : Label} (h1 : chronoLe a b) (h2 : chronoLe b c) :
    chronoLe a c := by
  rcases h2 with h2 | rfl
  · exact Or.inl (chronoLe_of_le_lt h1 h2)
  · exact h1

theorem chronoLt_month_succ (d : YM) (h : d.valid) :
    chronoLt (.month d) (.month (month_add d 1)) := by
  obtain ⟨h1, h2⟩ := h
  simp only [month_add, chronoLt]
  omega

theorem quarter_label_mono (d : YM) (h : d.valid) :
    chronoLe (to_quarter_label d) (to_quarter_label (month_add d 1)) := by
  obtain ⟨h1, h2⟩ := h
  simp only [to_quarter_label, month_add, chronoLe, chronoLt, Label.quarter.injEq]
  omega

/-! ### The period enumeration is strictly sorted -/

theorem periods_go_month_chain (fin : YM) (fuel : Nat) :
    ∀ (cur : YM) (out : List Label), cur.valid →
      List.Chain' chronoLt out →
      (∀ l ∈ out, chronoLt l (.month cur)) →
      List.Chain' chronoLt (periods_go .month fin fuel cur out) := by
  induction fuel with
  | zero => intro cur out _ hc _; simpa [periods_go] using hc
  | succ n ih =>
    intro cur out hv hc hlt
    simp only [periods_go]
    split
    · apply ih (month_add cur 1) _ (month_add_valid cur 1)
      · simp only [pushLabel]
        rw [List.chain'_append]
        refine ⟨hc, List.chain'_singleton _, ?_⟩
        intro x hx y hy
        obtain ⟨hne, rfl⟩ := List.mem_getLast?_eq_getLast hx
        simp only [List.head?_cons, Option.mem_def, Option.some.injEq] at hy
        subst hy
        exact hlt _ (List.getLast_mem hne)
      · intro l hl
        simp only [pushLabel, List.mem_append, List.mem_singleton] at hl
        rcases hl with h1 | rfl
        · exact chronoLt_trans (hlt l h1) (chronoLt_month_succ cur hv)
        · exact chronoLt_month_succ cur hv
    · exact hc

theorem periods_go_quarter_chain (fin : YM) (fuel : Nat) :
    ∀ (cur : YM) (out : List Label), cur.valid →
      List.Chain' chronoLt out →
      (∀ l ∈ out, chronoLe l (to_quarter_label cur)) →
      List.Chain' chronoLt (periods_go .quarter fin fuel cur out) := by
  induction fuel with
  | zero => intro cur out _ hc _; simpa [periods_go] using hc
  | succ n ih =>
    intro cur out hv hc hle
    simp only [periods_go]
    split
    · apply ih (month_add cur 1) _ (month_add_valid cur 1)
      · simp only [pushLabel]
        split
        · exact hc
        · rw [List.chain'_append]
          refine ⟨hc, List.chain'_singleton _, ?_⟩
          intro x hx y hy
          obtain ⟨hne, rfl⟩ := List.mem_getLast?_eq_getLast hx
          simp only [List.head?_cons, Option.mem_def, Option.some.injEq] at hy
          subst hy
          rcases hle _ (List.getLast_mem hne) with h1 | h1
          · exact h1
          · exfalso
            rename_i hlast
            exact hlast (h1 ▸ (List.getLast?_eq_getLast_of_ne_nil hne))
      · intro l hl
        simp only [pushLabel] at hl
        have hmono := quarter_label_mono cur hv
        split at hl
        · exact chronoLe_trans (hle l hl) hmono
        · simp only [List.mem_append, List.mem_singleton] at hl
          rcases hl with h1 | rfl
          · exact chronoLe_trans (hle l h1) hmono
          · exact hmono
    · exact hc

theorem list_periods_chain (tf : Timeframe) (hs : tf.start_date.validMonth) :
    List.Chain' chronoLt (list_periods tf) := by
  have hv : ((month_floor tf.start_date).toYM).valid := hs
  unfold list_periods
  cases hg : tf.granularity
  · exact periods_go_month_chain _ _ _ [] hv (List.chain'_nil) (by simp)
  · exact periods_go_quarter_chain _ _ _ [] hv (List.chain'_nil) (by simp)

/-- The end date every `build_timeframe` variant computes (last day of the
current month) lies in the current month. -/
theorem endDate_toYM (d : Date) (h : d.validMonth) :
    (pred_day (month_addD (month_floor d) 1)).toYM = d.toYM := by
  obtain ⟨h1, h2⟩ := h
  simp only [month_floor, month_addD, month_add, pred_day, Date.toYM]
  split_ifs with hlt heq
  · exact absurd hlt (by norm_num)
  · simp only [YM.mk.injEq]
    omega
  · simp only [YM.mk.injEq]
    omega

/-- Number of whole calendar months spanned inclusively by a timeframe. -/
def spanMonths (tf : Timeframe) : Int :=
  monthIdx tf.end_date.toYM - monthIdx tf.start_date.toYM + 1

/-- Claim C5: with the injected current date 2025-09-15 and range `6m`, the
include-current-month timeframe builder (finance, executive dashboard,
marketing, manufacturing) yields start 2025-04-01, end 2025-09-30, and the
month-granularity period labels 2025-04 .. 2025-09. -/
theorem timeframe_6m_sep2025 :
    (build_timeframe ⟨2025, 9, 15⟩ .r6m .month).start_date = ⟨2025, 4, 1⟩ ∧
    (build_timeframe ⟨2025, 9, 15⟩ .r6m .month).end_date = ⟨2025, 9, 30⟩ ∧
    (list_periods (build_timeframe ⟨2025, 9, 15⟩ .r6m .month)).map labelStr =
      ["2025-04", "2025-05", "2025-06", "2025-07", "2025-08", "2025-09"] := by
  refine ⟨by decide, by decide, by decide⟩

/-- Claim C6: for both ranges, the sales/supply timeframe builder starts a full
`months` before the current month, so its inclusive window spans `months + 1`
whole calendar months — one month more than the include-current-month variant
built from the same clock. -/
theorem sales_supply_window_one_month_longer (today : Date) (h : today.validMonth)
    (r : RangeE) (g : Gran) :
    (build_timeframe_sales_supply today r g).start_date =
      month_addD (month_floor today) (-r.months) ∧
    spanMonths (build_timeframe_sales_supply today r g) = r.months + 1 ∧
    spanMonths (build_timeframe_sales_supply today r g) =
      spanMonths (build_timeframe today r g) + 1 := by
  refine ⟨rfl, ?_, ?_⟩ <;>
  · simp only [spanMonths, build_timeframe_sales_supply, build_timeframe,
      endDate_toYM today h]
    have hs : (month_addD (month_floor today) (-r.months)).toYM =
        month_add (month_floor today).toYM (-r.months) := rfl
    have hs2 : (month_addD (month_floor today) (-(r.months - 1))).toYM =
        month_add (month_floor today).toYM (-(r.months - 1)) := rfl
    simp only [hs, hs2, monthIdx_month_add]
    have : (month_floor today).toYM = today.toYM := rfl
    simp only [this]
    omega

/-- Witness for C6 at the concrete clock 2025-09-15 with range 6m. -/
theorem sales_supply_window_one_month_longer_witness :
    spanMonths (build_timeframe_sales_supply ⟨2025, 9, 15⟩ .r6m .month) = 7 ∧
    spanMonths (build_timeframe_sales_supply ⟨2025, 9, 15⟩ .r6m .month) =
      spanMonths (build_timeframe ⟨2025, 9, 15⟩ .r6m .month) + 1 := by
  have h := sales_supply_window_one_month_longer ⟨2025, 9, 15⟩ (by decide) .r6m .month
  exact ⟨h.2.1.trans (by decide), h.2.2⟩

/-- Claim C7: for every timeframe whose start date is a real calendar date, the
period enumeration is strictly chronologically ordered — pairwise, not merely
adjacently — and therefore has no duplicate labels.  (Quarter labels are
computed by `to_quarter_label`, the integer-division bucketing of the source,
and strictness of the order shows adjacent equal quarter labels were merged.) -/
theorem list_periods_sorted_nodup (tf : Timeframe) (hs : tf.start_date.validMonth) :
    List.Pairwise chronoLt (list_periods tf) ∧ (list_periods tf).Nodup := by
  have hp : List.Pairwise chronoLt (list_periods tf) :=
    List.chain'_iff_pairwise.mp (list_periods_chain tf hs)
  exact ⟨hp, hp.nodup⟩

/-- Witness for C7 on the concrete 12-month quarter-granularity timeframe built
at 2025-09-15. -/
theorem list_periods_sorted_nodup_witness :
    List.Pairwise chronoLt (list_periods (build_timeframe ⟨2025, 9, 15⟩ .r12m .quarter)) ∧
    (list_periods (build_timeframe ⟨2025, 9, 15⟩ .r12m .quarter)).Nodup :=
  list_periods_sorted_nodup (build_timeframe ⟨2025, 9, 15⟩ .r12m .quarter) (by decide)

/-! ### Python dict bucketing: setdefault-and-update folds -/

/-- Lookup in an insertion-ordered association list (Python dict lookup). -/
def lookupA {κ β : Type} [DecidableEq κ] : List (κ × β) → κ → Option β
  | [], _ => none
  | (k, v) :: t, k2 => if k = k2 then some v else lookupA t k2

/-- One `agg.setdefault(key, z)`-then-update step on a Python dict. -/
def upsert {κ β : Type} [DecidableEq κ] (k : κ) (f : β → β) (z : β) :
    List (κ × β) → List (κ × β)
  | [] => [(k, f z)]
  | (k2, v) :: t => if k2 = k then (k2, f v) :: t else (k2, v) :: upsert k f z t

/-- The `for r in rows: a = agg.setdefault(key(r), z); update a with r` loop. -/
def foldUpsert {κ ρ β : Type} [DecidableEq κ] (key : ρ → κ) (upd : β → ρ → β)
    (z : β) (rows : List ρ) : List (κ × β) :=
  rows.foldl (fun acc r => upsert (key r) (fun b => upd b r) z acc) []

theorem lookupA_upsert {κ β : Type} [DecidableEq κ] (k : κ) (f : β → β) (z : β)
    (l : List (κ × β)) (k2 : κ) :
    lookupA (upsert k f z l) k2 =
      if k2 = k then some (f ((lookupA l k).getD z)) else lookupA l k2 := by
  induction l with
  | nil =>
    simp only [upsert, lookupA]
    rcases eq_or_ne k2 k with rfl | h
    · simp
    · simp [h, Ne.symm h]
  | cons hd t ih =>
    obtain ⟨k3, v⟩ := hd
    rcases eq_or_ne k3 k with rfl | h3
    · simp only [upsert, if_pos rfl, lookupA]
      rcases eq_or_ne k2 k3 with rfl | h
      · simp
      · simp [h, Ne.symm h]
    · simp only [upsert, if_neg h3, lookupA, ih]
      rcases eq_or_ne k3 k2 with rfl | h
      · simp [h3, lookupA]
      · simp [h, h3, lookupA]

theorem lookupA_foldUpsert {κ ρ β : Type} [DecidableEq κ] (key : ρ → κ)
    (upd : β → ρ → β) (z : β) (rows : List ρ) (k : κ) :
    lookupA (foldUpsert key upd z rows) k =
      if (rows.filter (fun r => decide (key r = k))).isEmpty then none
      else some ((rows.filter (fun r => decide (key r = k))).foldl upd z) := by
  induction rows using List.reverseRecOn with
  | nil => simp [foldUpsert, lookupA]
  | append_singleton rs r ih =>
    have hstep : foldUpsert key upd z (rs ++ [r]) =
        upsert (key r) (fun b => upd b r) z (foldUpsert key upd z rs) := by
      simp [foldUpsert, List.foldl_append]
    rw [hstep, lookupA_upsert]
    rcases eq_or_ne (key r) k with hk | hk
    · rw [hk, if_pos rfl, ih]
      rw [List.filter_append]
      simp only [List.filter_cons, List.filter_nil]
      by_cases hfs : (rs.filter (fun r => decide (key r = k))).isEmpty
      · rw [if_pos hfs, List.isEmpty_iff.mp hfs]
        simp [List.foldl, hk]
      · rw [if_neg hfs, Option.getD_some, if_neg (by simp [List.isEmpty_iff, hk]),
          List.foldl_append]
        simp [List.foldl, hk]
    · rw [if_neg (fun h => hk h.symm), ih, List.filter_append]
      simp [List.filter_cons, hk]

/-! ### Revenue-trend aggregation (executive overview and finance drilldown) -/

/-- A row of the `revenue_trend` table, after the SQL `COALESCE(x,0)` (the
drilldown variant reads raw columns but collapses NULL exactly like 0 through
`x or ...`, so 0 stands for NULL there as well). -/
structure RevRow where
  period : YM
  recognized : Rat
  booked : Rat
  backlog : Rat
deriving DecidableEq, Repr

/-- The per-label bucket the loops build. -/
structure RevAgg where
  recognized : Rat
  booked : Rat
  backlog : Rat
deriving DecidableEq, Repr

def zeroAgg : RevAgg := ⟨0, 0, 0⟩

/-- Bucket update of executive_dashboard.py (also finance_overview): recognized
and booked accumulate, backlog is overwritten by the row value. -/
def updRev (a : RevAgg) (r : RevRow) : RevAgg :=
  ⟨a.recognized + r.recognized, a.booked + r.booked, r.backlog⟩

/-- Bucket update of the finance revenue drilldown: backlog is overwritten only
when the row value is truthy (`float(r["backlog"] or a["backlog"])`). -/
def updRevDrill (a : RevAgg) (r : RevRow) : RevAgg :=
  ⟨a.recognized + r.recognized, a.booked + r.booked,
    if r.backlog = 0 then a.backlog else r.backlog⟩

/-- Embedding of `label = p if granularity == "month" else to_quarter_label(p)`. -/
def labelOf (g : Gran) (p : YM) : Label :=
  match g with
  | .month => .month p
  | .quarter => to_quarter_label p

/-- The aggregation loop of executive_dashboard.py lines 110-118 (same text in
finance_overview lines 93-100). -/
def buildAgg (g : Gran) (rows : List RevRow) : List (Label × RevAgg) :=
  foldUpsert (fun r => labelOf g r.period) updRev zeroAgg rows

/-- The aggregation loop of the finance revenue drilldown, lines 176-182. -/
def buildAggDrill (g : Gran) (rows : List RevRow) : List (Label × RevAgg) :=
  foldUpsert (fun r => labelOf g r.period) updRevDrill zeroAgg rows

theorem foldl_updRev_backlog (fs : List RevRow) (hne : fs ≠ []) (a : RevAgg) :
    (fs.foldl updRev a).backlog = (fs.getLast hne).backlog := by
  induction fs generalizing a with
  | nil => exact absurd rfl hne
  | cons r t ih =>
    cases t with
    | nil => simp [List.foldl, updRev, List.getLast]
    | cons r2 t2 =>
      have hg : ((r :: r2 :: t2).getLast hne) = ((r2 :: t2).getLast (by simp)) :=
        List.getLast_cons (by simp)
      rw [List.foldl_cons, ih (by simp) (updRev a r), hg]

theorem foldl_updRevDrill_backlog (fs : List RevRow) (a : RevAgg) :
    (fs.foldl updRevDrill a).backlog =
      ((fs.map RevRow.backlog).filter (fun x => decide (x ≠ 0))).getLast?.getD a.backlog := by
  induction fs generalizing a with
  | nil => rfl
  | cons r t ih =>
    rw [List.foldl_cons, ih (updRevDrill a r), List.map_cons, List.filter_cons]
    have hb : (updRevDrill a r).backlog = if r.backlog = 0 then a.backlog else r.backlog := rfl
    by_cases h0 : r.backlog = 0
    · rw [hb, if_pos h0, if_neg (by simp [h0])]
    · rw [hb, if_neg h0, if_pos (by simp [h0])]
      cases hfil : (t.map RevRow.backlog).filter (fun x => decide (x ≠ 0)) with
      | nil => simp
      | cons w ws =>
        rw [List.getLast?_cons_cons,
          List.getLast?_eq_getLast_of_ne_nil (l := w :: ws) (by simp)]
        rfl

/-- Strict chronological order on year-month pairs (Python `date.__lt__`). -/
def ymLt (a b : YM) : Prop := a.y < b.y ∨ (a.y = b.y ∧ a.m < b.m)

instance (a b : YM) : Decidable (ymLt a b) := by unfold ymLt; infer_instance

theorem ymLe_of_lt {a b : YM} (h : ymLt a b) : ymLe a b := by
  unfold ymLt at h; unfold ymLe; omega

theorem ymLe_refl (a : YM) : ymLe a a := by unfold ymLe; omega

/-- In a pairwise-ordered list, the last element is an upper bound. -/
theorem pairwise_getLast_ub {α : Type} {R : α → α → Prop} (l : List α)
    (h : List.Pairwise R l) (hne : l ≠ []) (x : α) (hx : x ∈ l) :
    x = l.getLast hne ∨ R x (l.getLast hne) := by
  induction l with
  | nil => exact absurd rfl hne
  | cons a t ih =>
    cases t with
    | nil =>
      simp only [List.mem_singleton] at hx
      subst hx
      exact Or.inl rfl
    | cons b t2 =>
      have hg : (a :: b :: t2).getLast hne = (b :: t2).getLast (by simp) :=
        List.getLast_cons (by simp)
      rw [hg]
      rcases List.mem_cons.mp hx with rfl | hx2
      · exact Or.inr ((List.pairwise_cons.mp h).1 _ (List.getLast_mem (by simp)))
      · exact ih (List.pairwise_cons.mp h).2 (by simp) hx2

/-- Claim C1 (amended): over rows listed in ascending period order (the SQL
`ORDER BY period`), the overview aggregation (`buildAgg`, executive dashboard
and finance overview) reports for each quarter label the backlog of the
chronologically last month mapping to it; the finance revenue-drilldown
aggregation (`buildAggDrill`) instead reports the last *truthy* monthly
backlog (falling back over months whose backlog is 0/NULL, and 0 if none). -/
theorem backlog_quarter_lastwins (rows : List RevRow)
    (hsort : List.Pairwise (fun r s => ymLt r.period s.period) rows) (L : Label) :
    (∀ a, lookupA (buildAgg .quarter rows) L = some a →
      ∃ r, r ∈ rows ∧ labelOf .quarter r.period = L ∧ a.backlog = r.backlog ∧
        ∀ r2, r2 ∈ rows → labelOf .quarter r2.period = L → ymLe r2.period r.period) ∧
    (∀ a, lookupA (buildAggDrill .quarter rows) L = some a →
      a.backlog = (((rows.filter (fun r => decide (labelOf .quarter r.period = L))).map
        RevRow.backlog).filter (fun x => decide (x ≠ 0))).getLast?.getD 0) := by
  constructor
  · intro a ha
    rw [buildAgg, lookupA_foldUpsert] at ha
    by_cases hemp : (rows.filter (fun r => decide (labelOf .quarter r.period = L))).isEmpty
    · rw [if_pos hemp] at ha
      exact absurd ha (by simp)
    · rw [if_neg hemp] at ha
      have hne : rows.filter (fun r => decide (labelOf .quarter r.period = L)) ≠ [] :=
        fun h => hemp (by simp [h])
      have hinj := Option.some.inj ha
      refine ⟨(rows.filter (fun r => decide (labelOf .quarter r.period = L))).getLast hne,
        List.mem_of_mem_filter (List.getLast_mem hne), ?_, ?_, ?_⟩
      · have hmem := List.mem_filter.mp (List.getLast_mem hne)
        exact of_decide_eq_true hmem.2
      · rw [← hinj, foldl_updRev_backlog _ hne]
      · intro r2 h2 hl2
        have h2f : r2 ∈ rows.filter (fun r => decide (labelOf .quarter r.period = L)) :=
          List.mem_filter.mpr ⟨h2, by simp [hl2]⟩
        have hp : List.Pairwise (fun r s : RevRow => ymLt r.period s.period)
            (rows.filter (fun r => decide (labelOf .quarter r.period = L))) :=
          hsort.sublist (List.filter_sublist rows)
        rcases pairwise_getLast_ub _ hp hne r2 h2f with heq | hlt
        · rw [heq]; exact ymLe_refl _
        · exact ymLe_of_lt hlt
  · intro a ha
    rw [buildAggDrill, lookupA_foldUpsert] at ha
    by_cases hemp : (rows.filter (fun r => decide (labelOf .quarter r.period = L))).isEmpty
    · rw [if_pos hemp] at ha
      exact absurd ha (by simp)
    · rw [if_neg hemp] at ha
      have hinj := Option.some.inj ha
      rw [← hinj, foldl_updRevDrill_backlog]
      rfl

/-- Counterexample to claim C1 as stated: in the finance revenue drilldown, a
quarter whose last month (2025-05) has backlog 0 reports 100 (the April value),
not the last month's 0 — overwrite is skipped for falsy backlog values. -/
theorem backlog_quarter_lastwins_counterexample :
    (lookupA (buildAggDrill .quarter
        [⟨⟨2025, 4⟩, 0, 0, 100⟩, ⟨⟨2025, 5⟩, 0, 0, 0⟩])
      (to_quarter_label ⟨2025, 5⟩)).map RevAgg.backlog = some 100 ∧
    (⟨⟨2025, 5⟩, 0, 0, 0⟩ : RevRow).backlog = 0 ∧ (100 : Rat) ≠ 0 := by
  refine ⟨?_, rfl, by norm_num⟩
  norm_num [buildAggDrill, foldUpsert, upsert, updRevDrill, zeroAgg, lookupA,
    labelOf, to_quarter_label]

/-- Witness for C1 on the spec scenario: monthly backlogs 100, 120, 90 in one
quarter aggregate (overview variant) to 90. -/
theorem backlog_quarter_lastwins_witness :
    lookupA (buildAgg .quarter
        [⟨⟨2025, 4⟩, 0, 0, 100⟩, ⟨⟨2025, 5⟩, 0, 0, 120⟩, ⟨⟨2025, 6⟩, 0, 0, 90⟩])
      (.quarter 2025 2) = some ⟨0, 0, 90⟩ ∧
    (∃ r, r ∈ [(⟨⟨2025, 4⟩, 0, 0, 100⟩ : RevRow), ⟨⟨2025, 5⟩, 0, 0, 120⟩, ⟨⟨2025, 6⟩, 0, 0, 90⟩] ∧
      labelOf .quarter r.period = .quarter 2025 2 ∧
      (⟨0, 0, 90⟩ : RevAgg).backlog = r.backlog ∧
      ∀ r2, r2 ∈ [(⟨⟨2025, 4⟩, 0, 0, 100⟩ : RevRow), ⟨⟨2025, 5⟩, 0, 0, 120⟩, ⟨⟨2025, 6⟩, 0, 0, 90⟩] →
        labelOf .quarter r2.period = .quarter 2025 2 → ymLe r2.period r.period) := by
  have hlook : lookupA (buildAgg .quarter
      [⟨⟨2025, 4⟩, 0, 0, 100⟩, ⟨⟨2025, 5⟩, 0, 0, 120⟩, ⟨⟨2025, 6⟩, 0, 0, 90⟩])
      (.quarter 2025 2) = some ⟨0, 0, 90⟩ := by
    norm_num [buildAgg, foldUpsert, upsert, updRev, zeroAgg, lookupA,
      labelOf, to_quarter_label]
  refine ⟨hlook, ?_⟩
  exact (backlog_quarter_lastwins
    [⟨⟨2025, 4⟩, 0, 0, 100⟩, ⟨⟨2025, 5⟩, 0, 0, 120⟩, ⟨⟨2025, 6⟩, 0, 0, 90⟩]
    (by decide) (.quarter 2025 2)).1 ⟨0, 0, 90⟩ hlook

/-! ### Series construction and zero-fill (claim C2) -/

theorem list_periods_nodup_aux (tf : Timeframe) (hs : tf.start_date.validMonth) :
    (list_periods tf).Nodup :=
  (List.chain'_iff_pairwise.mp (list_periods_chain tf hs)).nodup

/-- Overview revenue trend (executive_dashboard.py lines 120-123, finance.py
line 102): one record per enumerated label, zero bucket when absent. -/
def trendOf (tf : Timeframe) (rows : List RevRow) : List (Label × RevAgg) :=
  (list_periods tf).map
    (fun p => (p, (lookupA (buildAgg tf.granularity rows) p).getD zeroAgg))

/-- A row of the backlog drilldown query (finance.py lines 187-194),
`COALESCE(backlog,0)` applied. -/
structure BacklogRow where
  period : YM
  backlog : Rat
deriving DecidableEq, Repr

/-- The backlog drilldown series (finance.py lines 195-202): at month
granularity the series is the raw row list; at quarter granularity a
last-write dict is built and every enumerated label is emitted with
`last_by_q.get(p, 0.0)`. -/
def backlogSeries (tf : Timeframe) (rows : List BacklogRow) : List (Label × Rat) :=
  match tf.granularity with
  | .month => rows.map (fun r => (Label.month r.period, r.backlog))
  | .quarter =>
    let last_by_q := foldUpsert (fun r : BacklogRow => to_quarter_label r.period)
      (fun _ r => r.backlog) 0 rows
    (list_periods tf).map (fun p => (p, (lookupA last_by_q p).getD 0))

/-- Claim C2 (amended): series built by mapping over the enumerated labels —
the overview revenue trend at either granularity, and the quarter-granularity
backlog drilldown series — carry every enumerated label exactly once, and a
label with no matching raw rows carries the zero-filled record.  The
month-granularity backlog drilldown series instead emits exactly one point per
raw row, so enumerated labels without rows are omitted. -/
theorem series_labels_zero_fill (tf : Timeframe) (hs : tf.start_date.validMonth)
    (rows : List RevRow) (brows : List BacklogRow) :
    ((trendOf tf rows).map Prod.fst = list_periods tf ∧
      ∀ p ∈ list_periods tf, ((trendOf tf rows).map Prod.fst).count p = 1) ∧
    (∀ p ∈ list_periods tf, lookupA (buildAgg tf.granularity rows) p = none →
      (p, zeroAgg) ∈ trendOf tf rows) ∧
    (tf.granularity = .quarter →
      (backlogSeries tf brows).map Prod.fst = list_periods tf ∧
      ∀ p ∈ list_periods tf,
        lookupA (foldUpsert (fun r : BacklogRow => to_quarter_label r.period)
          (fun _ r => r.backlog) 0 brows) p = none →
        (p, (0 : Rat)) ∈ backlogSeries tf brows) ∧
    (tf.granularity = .month →
      (backlogSeries tf brows).map Prod.fst = brows.map (fun r => Label.month r.period)) := by
  have hmap : (trendOf tf rows).map Prod.fst = list_periods tf := by
    unfold trendOf
    rw [List.map_map]
    exact List.map_id _
  refine ⟨⟨hmap, ?_⟩, ?_, ?_, ?_⟩
  · intro p hp
    rw [hmap]
    exact List.count_eq_one_of_mem (list_periods_nodup_aux tf hs) hp
  · intro p hp hnone
    have : (p, zeroAgg) =
        (p, (lookupA (buildAgg tf.granularity rows) p).getD zeroAgg) := by
      rw [hnone]; rfl
    rw [this]
    exact List.mem_map_of_mem _ hp
  · intro hq
    constructor
    · unfold backlogSeries
      rw [hq, List.map_map]
      exact List.map_id _
    · intro p hp hnone
      have h0 : (p, (0 : Rat)) =
          (p, (lookupA (foldUpsert (fun r : BacklogRow => to_quarter_label r.period)
            (fun _ r => r.backlog) 0 brows) p).getD 0) := by
        rw [hnone]; rfl
      rw [h0]
      unfold backlogSeries
      rw [hq]
      exact List.mem_map_of_mem _ hp
  · intro hm
    unfold backlogSeries
    rw [hm, List.map_map]
    rfl

/-- Counterexample to claim C2 as stated: at month granularity the backlog
drilldown series is the raw row list, so the enumerated label 2025-09 is
omitted when no raw row exists for that month. -/
theorem series_labels_zero_fill_counterexample :
    Label.month ⟨2025, 9⟩ ∈ list_periods (build_timeframe ⟨2025, 9, 15⟩ .r6m .month) ∧
    Label.month ⟨2025, 9⟩ ∉
      (backlogSeries (build_timeframe ⟨2025, 9, 15⟩ .r6m .month)
        [⟨⟨2025, 4⟩, 100⟩, ⟨⟨2025, 5⟩, 110⟩, ⟨⟨2025, 6⟩, 120⟩,
         ⟨⟨2025, 7⟩, 130⟩, ⟨⟨2025, 8⟩, 140⟩]).map Prod.fst := by
  exact ⟨by decide, by decide⟩

/-- Witness for C2 on the 2025-09-15 quarter timeframe with no raw rows. -/
theorem series_labels_zero_fill_witness :
    ((trendOf (build_timeframe ⟨2025, 9, 15⟩ .r6m .quarter) []).map Prod.fst =
        list_periods (build_timeframe ⟨2025, 9, 15⟩ .r6m .quarter) ∧
      ∀ p ∈ list_periods (build_timeframe ⟨2025, 9, 15⟩ .r6m .quarter),
        ((trendOf (build_timeframe ⟨2025, 9, 15⟩ .r6m .quarter) []).map Prod.fst).count p = 1) ∧
    (∀ p ∈ list_periods (build_timeframe ⟨2025, 9, 15⟩ .r6m .quarter),
      lookupA (buildAgg (build_timeframe ⟨2025, 9, 15⟩ .r6m .quarter).granularity []) p = none →
      (p, zeroAgg) ∈ trendOf (build_timeframe ⟨2025, 9, 15⟩ .r6m .quarter) []) ∧
    ((build_timeframe ⟨2025, 9, 15⟩ .r6m .quarter).granularity = .quarter →
      (backlogSeries (build_timeframe ⟨2025, 9, 15⟩ .r6m .quarter) []).map Prod.fst =
        list_periods (build_timeframe ⟨2025, 9, 15⟩ .r6m .quarter) ∧
      ∀ p ∈ list_periods (build_timeframe ⟨2025, 9, 15⟩ .r6m .quarter),
        lookupA (foldUpsert (fun r : BacklogRow => to_quarter_label r.period)
          (fun _ r => r.backlog) 0 []) p = none →
        (p, (0 : Rat)) ∈ backlogSeries (build_timeframe ⟨2025, 9, 15⟩ .r6m .quarter) []) ∧
    ((build_timeframe ⟨2025, 9, 15⟩ .r6m .quarter).granularity = .month →
      (backlogSeries (build_timeframe ⟨2025, 9, 15⟩ .r6m .quarter) []).map Prod.fst =
        ([] : List BacklogRow).map (fun r => Label.month r.period)) :=
  series_labels_zero_fill (build_timeframe ⟨2025, 9, 15⟩ .r6m .quarter) (by decide) [] []

/-! ### Fraction normalizers (claim C3) and delta calculator (claim C4) -/

/-- Embedding of `_as_fraction` of finance.py / executive_dashboard.py: cutoff 2 (NRR may
exceed 1).  `none` stands for a NULL or unparseable input, on which Python's
`float(v)` raises and the function returns 0. -/
def _as_fraction (v : Option Rat) : Rat :=
  match v with
  | none => 0
  | some fv => if fv ≤ 2 then fv else fv / 100

/-- Embedding of `_as_fraction` of manufacturing.py: cutoff 1.5 (uptime/quality family). -/
def _as_fraction_mfg (v : Option Rat) : Rat :=
  match v with
  | none => 0
  | some f => if f ≤ 3/2 then f else f / 100

/-- Counterexample to claim C3 as stated: 1.10 does not become 0.011 under the
1.5-cutoff variant — 1.10 is below that cutoff too, so it is returned
unchanged. -/
theorem as_fraction_counterexample :
    _as_fraction_mfg (some (11/10)) = 11/10 ∧ (11/10 : Rat) ≠ 11/1000 := by
  constructor
  · rw [_as_fraction_mfg, if_pos (by norm_num)]
  · norm_num

/-- Claim C3 (amended): null/unparseable input yields 0 in both variants; a
value at most the family cutoff (2 for the finance/executive variant, 1.5 for
the manufacturing variant) is returned unchanged, a value above it is divided
by 100.  In particular 95 normalizes to 0.95, 0.95 stays 0.95, and 1.10 stays
1.10 under *both* variants; only values in (1.5, 2] — e.g. 1.75 — separate the
two variants. -/
theorem as_fraction_spec (v : Rat) :
    (_as_fraction none = 0 ∧ _as_fraction_mfg none = 0) ∧
    (v ≤ 2 → _as_fraction (some v) = v) ∧
    (2 < v → _as_fraction (some v) = v / 100) ∧
    (v ≤ 3/2 → _as_fraction_mfg (some v) = v) ∧
    (3/2 < v → _as_fraction_mfg (some v) = v / 100) ∧
    (_as_fraction (some 95) = 95/100 ∧ _as_fraction_mfg (some 95) = 95/100) ∧
    (_as_fraction (some (95/100)) = 95/100 ∧ _as_fraction_mfg (some (95/100)) = 95/100) ∧
    (_as_fraction (some (11/10)) = 11/10 ∧ _as_fraction_mfg (some (11/10)) = 11/10) := by
  refine ⟨⟨rfl, rfl⟩, ?_, ?_, ?_, ?_, ⟨?_, ?_⟩, ⟨?_, ?_⟩, ⟨?_, ?_⟩⟩
  · intro h; rw [_as_fraction, if_pos h]
  · intro h; rw [_as_fraction, if_neg (not_le.mpr h)]
  · intro h; rw [_as_fraction_mfg, if_pos h]
  · intro h; rw [_as_fraction_mfg, if_neg (not_le.mpr h)]
  · rw [_as_fraction, if_neg (by norm_num)]
  · rw [_as_fraction_mfg, if_neg (by norm_num)]
  · rw [_as_fraction, if_pos (by norm_num)]
  · rw [_as_fraction_mfg, if_pos (by norm_num)]
  · rw [_as_fraction, if_pos (by norm_num)]
  · rw [_as_fraction_mfg, if_pos (by norm_num)]

/-- Witness for C3 at 1.75, the value separating the two cutoffs. -/
theorem as_fraction_spec_witness :
    _as_fraction (some (7/4)) = 7/4 ∧ _as_fraction_mfg (some (7/4)) = (7/4) / 100 := by
  have h := as_fraction_spec (7/4)
  exact ⟨h.2.1 (by norm_num), h.2.2.2.2.1 (by norm_num)⟩

/-- Direction tag of a KPI delta. -/
inductive Direction where
  | up : Direction
  | down : Direction
  | flat : Direction
deriving DecidableEq, Repr

/-- Embedding of `_delta_dir` of executive_dashboard.py. -/
def _delta_dir (cur prev : Rat) : Option Rat × Direction :=
  if prev = 0 then (none, .flat)
  else
    let frac := (cur - prev) / prev
    (some frac, if frac > 0 then .up else if frac < 0 then .down else .flat)

/-- Claim C4: a zero prior value yields (None, Flat); otherwise the delta is
(cur - prev)/prev and the direction is the sign of that fraction.  The guard
makes the division total, so no division error can occur. -/
theorem delta_dir_spec (cur prev : Rat) :
    (prev = 0 → _delta_dir cur prev = (none, .flat)) ∧
    (prev ≠ 0 →
      (_delta_dir cur prev).1 = some ((cur - prev) / prev) ∧
      ((_delta_dir cur prev).2 = .up ↔ 0 < (cur - prev) / prev) ∧
      ((_delta_dir cur prev).2 = .down ↔ (cur - prev) / prev < 0) ∧
      ((_delta_dir cur prev).2 = .flat ↔ (cur - prev) / prev = 0)) := by
  constructor
  · intro h
    rw [_delta_dir, if_pos h]
  · intro h
    have hd : _delta_dir cur prev =
        (some ((cur - prev) / prev),
          if (cur - prev) / prev > 0 then Direction.up
          else if (cur - prev) / prev < 0 then Direction.down
          else Direction.flat) := by
      rw [_delta_dir, if_neg h]
    rw [hd]
    refine ⟨rfl, ?_, ?_, ?_⟩
    · split_ifs with h1 h2
      · exact ⟨fun _ => h1, fun _ => rfl⟩
      · exact ⟨fun hc => absurd hc (by decide), fun hc => absurd hc h1⟩
      · exact ⟨fun hc => absurd hc (by decide), fun hc => absurd hc h1⟩
    · split_ifs with h1 h2
      · exact ⟨fun hc => absurd hc (by decide), fun hc => absurd hc (lt_asymm h1)⟩
      · exact ⟨fun _ => h2, fun _ => rfl⟩
      · exact ⟨fun hc => absurd hc (by decide), fun hc => absurd hc h2⟩
    · split_ifs with h1 h2
      · exact ⟨fun hc => absurd hc (by decide),
          fun hc => absurd (hc ▸ h1) (lt_irrefl 0)⟩
      · exact ⟨fun hc => absurd hc (by decide),
          fun hc => absurd (hc ▸ h2) (lt_irrefl 0)⟩
      · exact ⟨fun _ => le_antisymm (not_lt.mp h1) (not_lt.mp h2), fun _ => rfl⟩

/-- Witness for C4: prior 0 gives (None, Flat); (3, 2) gives delta 1/2, Up. -/
theorem delta_dir_spec_witness :
    _delta_dir 5 0 = (none, .flat) ∧
    (_delta_dir 3 2).1 = some (((3 : Rat) - 2) / 2) ∧
    ((_delta_dir 3 2).2 = .up ↔ 0 < ((3 : Rat) - 2) / 2) := by
  have h0 := (delta_dir_spec 5 0).1 rfl
  have h2 := (delta_dir_spec 3 2).2 (by norm_num)
  exact ⟨h0, h2.1, h2.2.1⟩

/-! ### Coverage months (claim C9) -/

/-- Descending period order used by `ORDER BY period DESC`. -/
def periodDesc (a b : RevRow) : Prop := ymLe b.period a.period

instance : DecidableRel periodDesc := fun a b => by unfold periodDesc; infer_instance

/-- The trailing query of finance.py lines 116-123 (executive_dashboard.py
lines 152-160): rows with `period <= end_ym`, sorted descending, `LIMIT 6` —
a fixed window of (at most) 6 rows regardless of the requested range. -/
def trailing6 (table : List RevRow) (end_ym : YM) : List RevRow :=
  (List.insertionSort periodDesc
    (table.filter (fun r => decide (ymLe r.period end_ym)))).take 6

/-- Embedding of `avg6 = _sum([...recognized...]) / (len(trailing6) or 1)`. -/
def avg6 (table : List RevRow) (end_ym : YM) : Rat :=
  ((trailing6 table end_ym).map RevRow.recognized).sum /
    (if (trailing6 table end_ym).length = 0 then 1 else ((trailing6 table end_ym).length : Rat))

/-- Embedding of `coverage_months = float(end_backlog / avg6) if avg6 > 0 else 0.0`. -/
def coverage_months (table : List RevRow) (end_ym : YM) (end_backlog : Rat) : Rat :=
  if 0 < avg6 table end_ym then end_backlog / avg6 table end_ym else 0

/-- Counterexample to claim C9 as stated: the guard is `avg6 > 0`, not
`avg6 = 0` — with trailing average −150 and backlog 600 the code returns 0,
while the claimed formula backlog / average gives −4. -/
theorem coverage_months_counterexample :
    coverage_months [⟨⟨2025, 9⟩, -150, 0, 0⟩] ⟨2025, 9⟩ 600 = 0 ∧
    avg6 [⟨⟨2025, 9⟩, -150, 0, 0⟩] ⟨2025, 9⟩ = -150 ∧
    (600 : Rat) / (-150) = -4 ∧ (0 : Rat) ≠ -4 := by
  have ht : trailing6 [⟨⟨2025, 9⟩, -150, 0, 0⟩] ⟨2025, 9⟩ =
      [⟨⟨2025, 9⟩, -150, 0, 0⟩] := rfl
  have ha : avg6 [⟨⟨2025, 9⟩, -150, 0, 0⟩] ⟨2025, 9⟩ = -150 := by
    rw [avg6, ht]
    norm_num
  refine ⟨?_, ha, by norm_num, by norm_num⟩
  rw [coverage_months, ha, if_neg (by norm_num)]

/-- Claim C9 (amended): coverage months is the ending backlog divided by the
trailing average when that average is positive; when the average is zero *or
negative* the result is 0 (the guard is `avg6 > 0`), and no division error can
occur.  The trailing window always holds at most 6 rows, independent of the
requested range. -/
theorem coverage_months_spec (table : List RevRow) (end_ym : YM) (b : Rat) :
    (trailing6 table end_ym).length ≤ 6 ∧
    (0 < avg6 table end_ym →
      coverage_months table end_ym b = b / avg6 table end_ym) ∧
    (avg6 table end_ym ≤ 0 → coverage_months table end_ym b = 0) := by
  refine ⟨?_, ?_, ?_⟩
  · exact List.length_take_le 6 _
  · intro h
    rw [coverage_months, if_pos h]
  · intro h
    rw [coverage_months, if_neg (not_lt.mpr h)]

/-- Witness for C9 on the spec scenario: backlog 600, trailing average 150,
coverage months 4. -/
theorem coverage_months_spec_witness :
    coverage_months [⟨⟨2025, 9⟩, 150, 0, 0⟩] ⟨2025, 9⟩ 600 = 4 := by
  have ha : avg6 [⟨⟨2025, 9⟩, 150, 0, 0⟩] ⟨2025, 9⟩ = 150 := by
    rw [avg6, show trailing6 [⟨⟨2025, 9⟩, 150, 0, 0⟩] ⟨2025, 9⟩ =
      [⟨⟨2025, 9⟩, 150, 0, 0⟩] from rfl]
    norm_num
  have h := (coverage_months_spec [⟨⟨2025, 9⟩, 150, 0, 0⟩] ⟨2025, 9⟩ 600).2.1
    (by rw [ha]; norm_num)
  rw [h, ha]
  norm_num

/-! ### Breakdown shares (claims C8 and C10) -/

/-- Embedding of `_sum` of finance.py: `float(sum(xs)) if xs else 0.0`, i.e. the plain sum
(the empty case also sums to 0). -/
def _sum (xs : List Rat) : Rat := xs.sum

/-- A breakdown row of the response: name, value and share of total. -/
structure BRow where
  name : String
  value : Rat
  share : Rat
deriving DecidableEq, Repr

/-- finance.py lines 338-339 (same text in sales.py lines 327-328): the total
gets the falsy-guard `_sum(...) or 1.0`, each fetched group becomes one row
with `share = value / total`. -/
def sharesOf (bd : List (String × Rat)) : List BRow :=
  let total := if _sum (bd.map Prod.snd) = 0 then 1 else _sum (bd.map Prod.snd)
  bd.map (fun r => ⟨r.1, r.2, r.2 / total⟩)

/-- manufacturing.py lines 304-308: integer device counts with the `or 1`
guard and float division for the share. -/
def mfgShares (bd : List (String × Nat)) : List BRow :=
  let total : Rat :=
    if (bd.map Prod.snd).sum = 0 then 1 else ((bd.map Prod.snd).sum : Rat)
  bd.map (fun r => ⟨r.1, (r.2 : Rat), (r.2 : Rat) / total⟩)

theorem sum_map_div (l : List Rat) (c : Rat) :
    (l.map (fun x => x / c)).sum = l.sum / c := by
  induction l with
  | nil => simp
  | cons a t ih => simp [ih, add_div]

theorem shares_sum_eq (bd : List (String × Rat)) (total : Rat) :
    ((bd.map (fun r => (⟨r.1, r.2, r.2 / total⟩ : BRow))).map BRow.share).sum =
      (bd.map Prod.snd).sum / total := by
  rw [List.map_map, show (BRow.share ∘ fun r : String × Rat => (⟨r.1, r.2, r.2 / total⟩ : BRow))
    = (fun x => x / total) ∘ Prod.snd from rfl, ← List.map_map, sum_map_div]

/-- Counterexample to claim C8 as stated: with rows 5 and −5 at least one row
is nonzero, but the total is 0, the guard floors the denominator to 1, and the
shares sum to 0 — farther than 1e-6 from 1. -/
theorem breakdown_shares_counterexample :
    (∃ r ∈ [("A", (5 : Rat)), ("B", -5)], r.2 ≠ 0) ∧
    |((sharesOf [("A", (5 : Rat)), ("B", -5)]).map BRow.share).sum - 1| > 1 / 1000000 := by
  constructor
  · exact ⟨("A", 5), by simp, by norm_num⟩
  · norm_num [sharesOf, _sum]

/-- Claim C8 (amended): the shares of one breakdown response sum to exactly 1
whenever the rows' total is nonzero (for the count-based manufacturing
breakdown, whenever any row is nonzero); when all row values are zero the
denominator is floored to 1, every share is 0, and no division error occurs. -/
theorem breakdown_shares_sum (bd : List (String × Rat)) (bdn : List (String × Nat)) :
    (_sum (bd.map Prod.snd) ≠ 0 → ((sharesOf bd).map BRow.share).sum = 1) ∧
    ((∀ r ∈ bd, r.2 = 0) → ∀ row ∈ sharesOf bd, row.share = 0) ∧
    ((∃ r ∈ bdn, r.2 ≠ 0) → ((mfgShares bdn).map BRow.share).sum = 1) := by
  refine ⟨?_, ?_, ?_⟩
  · intro h
    simp only [sharesOf, if_neg h]
    rw [shares_sum_eq]
    exact div_self h
  · intro hz row hrow
    simp only [sharesOf] at hrow
    obtain ⟨r, hr, rfl⟩ := List.mem_map.mp hrow
    have : r.2 = 0 := hz r hr
    simp [this]
  · intro ⟨r, hr, hrz⟩
    have hsum : (bdn.map Prod.snd).sum ≠ 0 := by
      intro h0
      exact hrz (List.sum_eq_zero_iff.mp h0 r.2 (List.mem_map_of_mem Prod.snd hr))
    have hcast : ((bdn.map Prod.snd).sum : Rat) ≠ 0 := Nat.cast_ne_zero.mpr hsum
    simp only [mfgShares, if_neg hsum]
    rw [show (fun r : String × Nat =>
        (⟨r.1, (r.2 : Rat), (r.2 : Rat) / ((bdn.map Prod.snd).sum : Rat)⟩ : BRow)) =
      (fun r : String × Rat => (⟨r.1, r.2, r.2 / ((bdn.map Prod.snd).sum : Rat)⟩ : BRow)) ∘
        (fun r : String × Nat => (r.1, (r.2 : Rat))) from rfl, ← List.map_map]
    rw [shares_sum_eq]
    rw [show ((bdn.map (fun r : String × Nat => (r.1, (r.2 : Rat)))).map Prod.snd) =
      (bdn.map Prod.snd).map (fun n : Nat => (n : Rat)) by rw [List.map_map, List.map_map]; rfl]
    rw [← Nat.cast_list_sum]
    exact div_self hcast

/-- Witness for C8: values 3 and 1 (and counts 3 and 1) give shares summing
to 1. -/
theorem breakdown_shares_sum_witness :
    ((sharesOf [("A", (3 : Rat)), ("B", 1)]).map BRow.share).sum = 1 ∧
    ((mfgShares [("A", 3), ("B", 1)]).map BRow.share).sum = 1 := by
  have h := breakdown_shares_sum [("A", (3 : Rat)), ("B", 1)] [("A", 3), ("B", 1)]
  exact ⟨h.1 (by norm_num [_sum]), h.2.2 ⟨("A", 3), by simp, by norm_num⟩⟩

/-- One order joined with its customer dimension column (finance.py lines
326-337, sales.py lines 313-326); `dim = none` models a NULL dimension (no
matching customer or NULL column), `COALESCE(o.amount,0)` applied. -/
structure OrderRow where
  dim : Option String
  amount : Rat
deriving DecidableEq, Repr

/-- Embedding of `COALESCE(c.dim, 'Unknown')`: the SQL grouping key. -/
def orderKey (o : OrderRow) : String := o.dim.getD "Unknown"

/-- Embedding of `GROUP BY key, SUM(amount)`: bucketed sum per key. -/
def groupSum (os : List OrderRow) : List (String × Rat) :=
  foldUpsert orderKey (fun s o => s + o.amount) 0 os

/-- Embedding of `ORDER BY value DESC`. -/
def bdDesc (a b : String × Rat) : Prop := b.2 ≤ a.2

instance : DecidableRel bdDesc := fun a b => by unfold bdDesc; infer_instance

instance : IsTotal (String × Rat) bdDesc := ⟨fun a b => le_total b.2 a.2⟩

instance : IsTrans (String × Rat) bdDesc := ⟨fun _ _ _ h1 h2 => le_trans h2 h1⟩

/-- The fetched breakdown rows: grouped sums, sorted descending, `LIMIT 20`. -/
def breakdown_rows (os : List OrderRow) : List (String × Rat) :=
  (List.insertionSort bdDesc (groupSum os)).take 20

/-- The breakdown of the finance/sales drilldown response. -/
def finance_breakdown (os : List OrderRow) : List BRow :=
  sharesOf (breakdown_rows os)

theorem foldl_add_eq_sum (l : List OrderRow) (a : Rat) :
    l.foldl (fun s o => s + o.amount) a = a + (l.map OrderRow.amount).sum := by
  induction l generalizing a with
  | nil => simp
  | cons o t ih => rw [List.foldl_cons, ih, List.map_cons, List.sum_cons]; ring

/-- Counterexample to claim C10 as stated: a response whose only group has
value 0 has a share of 0 (denominator floored to 1), so the shares sum to 0,
not 1. -/
theorem finance_breakdown_counterexample :
    finance_breakdown [⟨none, 0⟩] = [⟨"Unknown", 0, 0⟩] ∧
    ((finance_breakdown [⟨none, 0⟩]).map BRow.share).sum = 0 ∧ (0 : Rat) ≠ 1 := by
  have h1 : finance_breakdown [⟨none, 0⟩] = [⟨"Unknown", 0, 0⟩] := by
    norm_num [finance_breakdown, sharesOf, breakdown_rows, groupSum, foldUpsert,
      upsert, _sum, List.insertionSort, List.orderedInsert, orderKey]
  refine ⟨h1, ?_, by norm_num⟩
  rw [h1]
  norm_num

/-- Claim C10 (amended): the finance/sales drilldown breakdown has at most 20
rows, ordered by descending value; NULL dimension values are grouped under
"Unknown", and each group's value is the sum of the matching orders' amounts;
whenever the total of the *returned* rows is nonzero, each share is its value
divided by that total and the shares sum to 1 (even when groups beyond the top
20 were cut from both the rows and the denominator); when that total is zero
the denominator is floored to 1. -/
theorem finance_breakdown_spec (os : List OrderRow) :
    (finance_breakdown os).length ≤ 20 ∧
    List.Pairwise (fun a b : BRow => b.value ≤ a.value) (finance_breakdown os) ∧
    (_sum ((breakdown_rows os).map Prod.snd) ≠ 0 →
      (∀ row ∈ finance_breakdown os,
        row.share = row.value / _sum ((breakdown_rows os).map Prod.snd)) ∧
      ((finance_breakdown os).map BRow.share).sum = 1) ∧
    (∀ k v, lookupA (groupSum os) k = some v →
      v = ((os.filter (fun o => decide (orderKey o = k))).map OrderRow.amount).sum) ∧
    (∀ o : OrderRow, o.dim = none → orderKey o = "Unknown") := by
  refine ⟨?_, ?_, ?_, ?_, ?_⟩
  · simp only [finance_breakdown, sharesOf, List.length_map]
    exact List.length_take_le 20 _
  · have hsorted : List.Pairwise bdDesc (breakdown_rows os) :=
      (List.sorted_insertionSort bdDesc (groupSum os)).sublist (List.take_sublist 20 _)
    simp only [finance_breakdown, sharesOf]
    exact List.pairwise_map.mpr hsorted
  · intro h
    constructor
    · intro row hrow
      simp only [finance_breakdown, sharesOf, if_neg h] at hrow
      obtain ⟨r, _, rfl⟩ := List.mem_map.mp hrow
      rfl
    · simp only [finance_breakdown, sharesOf, if_neg h]
      rw [shares_sum_eq]
      exact div_self h
  · intro k v hkv
    rw [groupSum, lookupA_foldUpsert] at hkv
    by_cases hemp : (os.filter (fun o => decide (orderKey o = k))).isEmpty
    · rw [if_pos hemp] at hkv
      exact absurd hkv (by simp)
    · rw [if_neg hemp] at hkv
      have := Option.some.inj hkv
      rw [← this, foldl_add_eq_sum, zero_add]
  · intro o hdim
    rw [orderKey, hdim]
    rfl

/-- Witness for C10: two orders, one with a NULL dimension, produce the
breakdown [("Acme", 3), ("Unknown", 1)] whose shares are value/4 and sum
to 1. -/
theorem finance_breakdown_spec_witness :
    (∀ row ∈ finance_breakdown [⟨some "Acme", 3⟩, ⟨none, 1⟩],
      row.share = row.value /
        _sum ((breakdown_rows [⟨some "Acme", 3⟩, ⟨none, 1⟩]).map Prod.snd)) ∧
    ((finance_breakdown [⟨some "Acme", 3⟩, ⟨none, 1⟩]).map BRow.share).sum = 1 :=
  (finance_breakdown_spec [⟨some "Acme", 3⟩, ⟨none, 1⟩]).2.2.1
    (by norm_num [breakdown_rows, groupSum, foldUpsert, upsert, _sum,
      List.insertionSort, List.orderedInsert, orderKey, bdDesc])
